import Mathlib

/-!
Shallow embedding of `src/models/layers/capsule_utils.py` (capsule layers with
dynamic routing-by-agreement) and proofs of the specification claims about it.

Tensors are modelled as index functions into `ℝ`:
a rank-4 dense votes tensor `[batch, in_dim, out_dim, out_atoms]` becomes
`Fin nb → Fin ni → Fin nj → Fin na → S → ℝ` with `S` the type of trailing
spatial positions (`Unit` for the dense layer, a product of two `Fin`s for the
convolutional layer).  Transposes in the source are pure axis bookkeeping and
disappear in this indexed form; reductions (`tf.reduce_sum`, `tf.norm`,
`tf.nn.softmax`) become `Finset` sums over the corresponding index type.
-/

open BigOperators

namespace CapsuleUtils

noncomputable section

/-- Votes tensor `[batch, in_dim, out_dim, out_atoms, spatial...]`
(`votes` argument of `_update_routing`). -/
abbrev Votes (nb ni nj na : ℕ) (S : Type) : Type :=
  Fin nb → Fin ni → Fin nj → Fin na → S → ℝ

/-- Bias tensor `[out_dim, out_atoms, spatial...]`, broadcast over the batch
axis when added (the `biases` argument of `_update_routing`). -/
abbrev Biases (nj na : ℕ) (S : Type) : Type :=
  Fin nj → Fin na → S → ℝ

/-- Routing logit tensor `[batch, in_dim, out_dim, spatial...]`
(the votes shape minus the atoms axis). -/
abbrev Logits (nb ni nj : ℕ) (S : Type) : Type :=
  Fin nb → Fin ni → Fin nj → S → ℝ

/-- Activation tensor `[batch, out_dim, out_atoms, spatial...]`. -/
abbrev Acts (nb nj na : ℕ) (S : Type) : Type :=
  Fin nb → Fin nj → Fin na → S → ℝ

/-- Euclidean norm along the atoms axis of a single capsule vector:
`tf.norm(in_tensor, axis=2, keep_dims=True)` at one `(batch, capsule,
spatial)` position (source line 40). -/
def vecNorm {n : ℕ} (v : Fin n → ℝ) : ℝ :=
  Real.sqrt (∑ a, v a * v a)

/-- Squash nonlinearity on one capsule vector, source lines 39-42:
`norm_squared = norm * norm; return (in_tensor / norm) * (norm_squared / (1 +
norm_squared))`.  The division is by the raw norm: the source adds no epsilon
to the divisor. -/
def squashVec {n : ℕ} (v : Fin n → ℝ) : Fin n → ℝ :=
  fun a => (v a / vecNorm v) * ((vecNorm v * vecNorm v) / (1 + vecNorm v * vecNorm v))

/-- Softmax along an axis of size `n` at one position of the remaining axes:
`tf.nn.softmax(logits, dim=2)` (source line 97). -/
def softmaxVec {n : ℕ} (l : Fin n → ℝ) : Fin n → ℝ :=
  fun j => Real.exp (l j) / ∑ j', Real.exp (l j')

/-- Leaky routing, source lines 44-62: prepend one constant-zero leak channel
(`leak = reduce_sum(zeros_like(logits), axis=2, keep_dims=True)` is
identically zero), softmax over the extended out axis, and drop the leak
channel (`tf.split(leaky_routing, [1, out_dim], 2)[1]`). -/
def leakyRoutingVec {n : ℕ} (l : Fin n → ℝ) : Fin n → ℝ :=
  fun j => softmaxVec (Fin.cons 0 l) j.succ

variable {nb ni nj na : ℕ} {S : Type}

/-- Routing coefficients computed from the logits in the loop body, source
lines 94-97: `_leaky_routing(logits, out_dim)` when `leaky` else
`tf.nn.softmax(logits, dim=2)`; axis 2 of the logits is the out-capsule
axis. -/
def routeOf (leaky : Bool) (logits : Logits nb ni nj S) : Logits nb ni nj S :=
  fun b i j s =>
    if leaky then leakyRoutingVec (fun j' => logits b i j' s) j
    else softmaxVec (fun j' => logits b i j' s) j

/-- Squash applied to a whole activation tensor, with the norm taken along
the atoms axis (axis 2 of `[batch, out_dim, out_atoms, spatial...]`). -/
def squashT (x : Acts nb nj na S) : Acts nb nj na S :=
  fun b j a s => squashVec (fun a' => x b j a' s) a

/-- Preactivation of the loop body, source lines 98-100: weight each vote by
its routing coefficient (broadcast over the atoms axis), sum over the
in-capsule axis and add the bias.  The transposes `votes_trans` /
`preact_trans` only align axes for the broadcast and are identities in the
indexed form. -/
def preactivateOf (votes : Votes nb ni nj na S) (biases : Biases nj na S)
    (route : Logits nb ni nj S) : Acts nb nj na S :=
  fun b j a s => (∑ i, route b i j s * votes b i j a s) + biases j a s

/-- Activation computed by one loop body from the current logits, source
lines 94-101. -/
def activationStep (leaky : Bool) (votes : Votes nb ni nj na S)
    (biases : Biases nj na S) (logits : Logits nb ni nj S) : Acts nb nj na S :=
  squashT (preactivateOf votes biases (routeOf leaky logits))

/-- Agreement scores added to the logits, source lines 103-107: the output
activation is broadcast back across the in-capsule axis (`expand_dims` +
`tile` by `in_dim` on axis 1) and dotted with the original unweighted votes
along the atoms axis (`reduce_sum(votes * act_replicated, axis=3)`). -/
def distancesOf (votes : Votes nb ni nj na S) (act : Acts nb nj na S) :
    Logits nb ni nj S :=
  fun b i j s => ∑ a, votes b i j a s * act b j a s

/-- One iteration of the routing while-loop `_body`, source lines 91-109,
acting on the carried state (logits, written activations): compute the
activation from the current logits, append it to the activation array, and
add the agreement scores to the logits. -/
def bodyStep (leaky : Bool) (votes : Votes nb ni nj na S) (biases : Biases nj na S)
    (st : Logits nb ni nj S × List (Acts nb nj na S)) :
    Logits nb ni nj S × List (Acts nb nj na S) :=
  let act := activationStep leaky votes biases st.1
  (fun b i j s => st.1 b i j s + distancesOf votes act b i j s, st.2 ++ [act])

/-- State after `k` iterations of the routing loop, source lines 111-119:
the logits start from `tf.fill(logit_shape, 0.0)` and the activation array
starts empty; the loop condition `i < num_routing` runs the body once per
iteration index. -/
def runRouting (leaky : Bool) (votes : Votes nb ni nj na S)
    (biases : Biases nj na S) : ℕ → Logits nb ni nj S × List (Acts nb nj na S)
  | 0 => (fun _ _ _ _ => 0, [])
  | k + 1 => bodyStep leaky votes biases (runRouting leaky votes biases k)

/-- Activation produced by iteration `k` (the one written at TensorArray
index `k`). -/
def activationAt (leaky : Bool) (votes : Votes nb ni nj na S)
    (biases : Biases nj na S) (k : ℕ) : Acts nb nj na S :=
  activationStep leaky votes biases (runRouting leaky votes biases k).1

/-- Return value of `_update_routing`, source line 124:
`activations.read(num_routing - 1)`.  The read of a TensorArray index that
was never written (as happens for `num_routing = 0`, where the loop body
never runs) fails, modelled by `none`.  `logit_shape`, `num_ranks`, `in_dim`
and `out_dim` are carried by the index types; `num_ranks` is modelled as the
actual rank of the votes tensor (4 plus the number of spatial axes), the
documented contract of source lines 75-76. -/
def updateRouting (votes : Votes nb ni nj na S) (biases : Biases nj na S)
    (leaky : Bool) (numRouting : ℕ) : Option (Acts nb nj na S) :=
  (runRouting leaky votes biases numRouting).2[numRouting - 1]?

/-- Contents published to the `visual` collection, source lines 120-122:
`activations.read(i)` for every `i in range(num_routing)` (reads may repeat
because the TensorArray is created with `clear_after_read=False`). -/
def visualCollection (votes : Votes nb ni nj na S) (biases : Biases nj na S)
    (leaky : Bool) (numRouting : ℕ) : List (Option (Acts nb nj na S)) :=
  (List.range numRouting).map fun k =>
    (runRouting leaky votes biases numRouting).2[k]?

/-- Reference computation for a single routing pass, modelled from the
spec's words: uniform routing coefficients (`1/out_dim` per output capsule
non-leaky, `1/(out_dim+1)` with leaky routing) applied to the votes, summed
over the input-capsule axis, plus the bias, followed by squash. -/
def singlePassReference (leaky : Bool) (votes : Votes nb ni nj na S)
    (biases : Biases nj na S) : Acts nb nj na S :=
  squashT (fun b j a s =>
    (∑ i, (if leaky then 1 / ((nj : ℝ) + 1) else 1 / (nj : ℝ)) * votes b i j a s)
      + biases j a s)

variable {nc m : ℕ}

/-- Flat row-major index of `(j, a)` in the merged `out_dim * out_atoms`
axis, the index arithmetic of `tf.reshape(votes, [-1, in_dim, out_dim,
out_atoms])` (source lines 283-284). -/
def flatIdx (j : Fin nj) (a : Fin na) : Fin (nj * na) :=
  ⟨j.1 * na + a.1, by
    have h1 : j.1 + 1 ≤ nj := j.2
    calc j.1 * na + a.1 < j.1 * na + na := Nat.add_lt_add_left a.2 _
      _ = (j.1 + 1) * na := by ring
      _ ≤ nj * na := Nat.mul_le_mul_right na h1⟩

/-- Input broadcast across the merged `out_dim * out_atoms` axis:
`tf.tile(tf.expand_dims(in_tensor, -1), [1, 1, 1, out_dim * out_atoms])`
(source lines 279-281). -/
def inTiled (x : Fin nb → Fin ni → Fin nc → ℝ) :
    Fin nb → Fin ni → Fin nc → Fin m → ℝ :=
  fun b i c _ => x b i c

/-- Flat votes of the dense layer: elementwise product of the tiled input
with the weights, reduce-summed over the in-atoms axis
(`tf.reduce_sum(in_tiled * weights, axis=2)`, source line 282). -/
def votesFlat (x : Fin nb → Fin ni → Fin nc → ℝ)
    (w : Fin ni → Fin nc → Fin m → ℝ) : Fin nb → Fin ni → Fin m → ℝ :=
  fun b i k => ∑ c, inTiled x b i c k * w i c k

/-- Dense votes reshaped to expose `out_dim` and `out_atoms` as separate
axes (`tf.reshape(votes, [-1, in_dim, out_dim, out_atoms])`, source lines
283-284). -/
def votesReshaped (x : Fin nb → Fin ni → Fin nc → ℝ)
    (w : Fin ni → Fin nc → Fin (nj * na) → ℝ) :
    Fin nb → Fin ni → Fin nj → Fin na → ℝ :=
  fun b i j a => votesFlat x w b i (flatIdx j a)

/-- Tile-shape list built inside the routing body, source lines 104-106:
`tile_shape = np.ones(num_ranks, dtype=np.int32).tolist();
tile_shape[1] = in_dim`.  The index-1 assignment into the length-`num_ranks`
list is an out-of-range list assignment (a Python `IndexError` raised while
the loop body is traced at graph construction) whenever `num_ranks < 2`,
modelled by `none`. -/
def tileShape (numRanks inDim : ℕ) : Option (List ℕ) :=
  if 1 < (List.replicate numRanks 1).length then
    some ((List.replicate numRanks 1).set 1 inDim)
  else none

/-- Value of the `num_ranks` argument that `capsule` passes to
`_update_routing`, source line 293. -/
def capsuleNumRanks : ℕ := 1

/-- Fully connected capsule layer `capsule`, source lines 240-298: dense
vote transform followed by the routing engine.  The call passes
`num_ranks = capsuleNumRanks = 1`, so building the tile shape inside the
routing body fails (see `tileShape`) before any activation is produced;
dense tensors have no spatial axes, modelled by the singleton spatial index
`Unit`. -/
def capsuleLayer (x : Fin nb → Fin ni → Fin nc → ℝ)
    (w : Fin ni → Fin nc → Fin (nj * na) → ℝ)
    (bi : Fin nj → Fin na → ℝ) (leaky : Bool) (numRouting : ℕ) :
    Option (Acts nb nj na Unit) :=
  match tileShape capsuleNumRanks ni with
  | none => none
  | some _ =>
      updateRouting (fun b i j a _ => votesReshaped x w b i j a)
        (fun j a _ => bi j a) leaky numRouting

/-- Sample tensors used by witness theorems. -/
def sampleVotes : Votes 1 1 1 1 Unit := fun _ _ _ _ _ => 0

/-- Sample bias tensor used by witness theorems. -/
def sampleBiases : Biases 1 1 Unit := fun _ _ _ => 0

/-- Sample capsule vector with norm 3, used by witness theorems. -/
def sampleVec : Fin 1 → ℝ := fun _ => 3

/-- Sample dense-layer input used by witness theorems. -/
def sampleInput : Fin 1 → Fin 1 → Fin 1 → ℝ := fun _ _ _ => 1

/-- Sample dense-layer weights used by witness theorems. -/
def sampleWeights : Fin 1 → Fin 1 → Fin (1 * 1) → ℝ := fun _ _ _ => 1

end

/-- Helper: softmax of an all-zero logit vector is uniform `1/n`. -/
theorem softmaxVec_zero {n : ℕ} (j : Fin n) :
    softmaxVec (fun _ => (0 : ℝ)) j = 1 / (n : ℝ) := by
  simp [softmaxVec, Real.exp_zero, Finset.card_univ]

/-- Helper: the concatenation of the zero leak channel with all-zero logits
is the all-zero vector. -/
theorem cons_zero_const {n : ℕ} :
    Fin.cons (0 : ℝ) (fun _ : Fin n => (0 : ℝ)) = fun _ => (0 : ℝ) := by
  funext j
  refine Fin.cases ?_ ?_ j <;> simp

/-- Helper: leaky routing of an all-zero logit vector is uniform
`1/(n+1)`. -/
theorem leakyRoutingVec_zero {n : ℕ} (j : Fin n) :
    leakyRoutingVec (fun _ => (0 : ℝ)) j = 1 / ((n : ℝ) + 1) := by
  unfold leakyRoutingVec
  rw [cons_zero_const, softmaxVec_zero]
  push_cast
  ring

/-- Helper: at the zero-initialized logits, the routing coefficients are
uniform: `1/out_dim` non-leaky, `1/(out_dim+1)` leaky. -/
theorem routeOf_zero {nb ni nj : ℕ} {S : Type} (leaky : Bool) (b : Fin nb)
    (i : Fin ni) (j : Fin nj) (s : S) :
    routeOf leaky (fun _ _ _ _ => (0 : ℝ)) b i j s
      = if leaky then 1 / ((nj : ℝ) + 1) else 1 / (nj : ℝ) := by
  cases leaky
  · simp [routeOf, softmaxVec_zero]
  · simp [routeOf, leakyRoutingVec_zero]

/-- Helper: the sum of exponentials of the logits over a nonempty out axis
is positive. -/
theorem exp_sum_pos {n : ℕ} (hn : 0 < n) (l : Fin n → ℝ) :
    0 < ∑ j', Real.exp (l j') := by
  have : Nonempty (Fin n) := ⟨⟨0, hn⟩⟩
  exact Finset.sum_pos (fun j _ => Real.exp_pos _) Finset.univ_nonempty

/-- Helper: softmax sums to one over a nonempty axis. -/
theorem softmaxVec_sum_one {n : ℕ} (hn : 0 < n) (l : Fin n → ℝ) :
    ∑ j, softmaxVec l j = 1 := by
  have hE := exp_sum_pos hn l
  simp only [softmaxVec]
  rw [← Finset.sum_div, div_self (ne_of_gt hE)]

/-- Helper: the leaky routing coefficients sum to `E/(1+E)` with
`E = Σ exp(logits)`, hence to strictly less than one. -/
theorem leakyRoutingVec_sum_lt_one {n : ℕ} (l : Fin n → ℝ) :
    ∑ j, leakyRoutingVec l j < 1 := by
  have hE : (0 : ℝ) ≤ ∑ j', Real.exp (l j') :=
    Finset.sum_nonneg fun j _ => (Real.exp_pos _).le
  have hd : ∑ j' : Fin (n + 1), Real.exp ((Fin.cons (0 : ℝ) l : Fin (n + 1) → ℝ) j')
      = 1 + ∑ j', Real.exp (l j') := by
    rw [Fin.sum_univ_succ]
    simp [Real.exp_zero]
  have hsum : ∑ j, leakyRoutingVec l j
      = (∑ j', Real.exp (l j')) / (1 + ∑ j', Real.exp (l j')) := by
    simp only [leakyRoutingVec, softmaxVec, Fin.cons_succ, hd]
    rw [← Finset.sum_div]
  rw [hsum, div_lt_one (by linarith)]
  linarith

/-- Claim C1: the routing logits start at zero each forward pass, each
iteration adds the agreement scores (the atoms-axis dot product between the
original unweighted votes and the just-computed activation, broadcast back
across input capsules), and consequently the logits after `k` iterations
equal the sum of the first `k` agreement scores. -/
theorem routing_logits_accumulate {nb ni nj na : ℕ} {S : Type}
    (votes : Votes nb ni nj na S) (biases : Biases nj na S) (leaky : Bool) :
    (runRouting leaky votes biases 0).1 = (fun _ _ _ _ => 0)
    ∧ (∀ k, (runRouting leaky votes biases (k + 1)).1
        = fun b i j s => (runRouting leaky votes biases k).1 b i j s
            + ∑ a, votes b i j a s * activationAt leaky votes biases k b j a s)
    ∧ ∀ k b i j s, (runRouting leaky votes biases k).1 b i j s
        = ∑ m in Finset.range k,
            ∑ a, votes b i j a s * activationAt leaky votes biases m b j a s := by
  refine ⟨rfl, fun k => rfl, ?_⟩
  intro k
  induction k with
  | zero => intro b i j s; simp [runRouting]
  | succ k ih =>
    intro b i j s
    have hstep : (runRouting leaky votes biases (k + 1)).1 b i j s
        = (runRouting leaky votes biases k).1 b i j s
          + ∑ a, votes b i j a s * activationAt leaky votes biases k b j a s := rfl
    rw [hstep, ih, Finset.sum_range_succ]

/-- Claim C5: with `num_routing = 1` and zero-initialized logits the routing
engine returns exactly the single uniform-coefficient reference pass:
coefficients `1/out_dim` (non-leaky) or `1/(out_dim+1)` (leaky) applied to
the votes, summed over input capsules, plus the bias, then squash. -/
theorem routing_single_iteration_uniform {nb ni nj na : ℕ} {S : Type}
    (votes : Votes nb ni nj na S) (biases : Biases nj na S) (leaky : Bool) :
    updateRouting votes biases leaky 1
      = some (singlePassReference leaky votes biases) := by
  have hact : activationAt leaky votes biases 0
      = singlePassReference leaky votes biases := by
    unfold activationAt activationStep singlePassReference
    have h0 : (runRouting leaky votes biases 0).1 = fun _ _ _ _ => (0 : ℝ) := rfl
    rw [h0]
    funext b j a s
    unfold preactivateOf
    simp only [routeOf_zero]
  have hacts : (runRouting leaky votes biases 1).2
      = [activationAt leaky votes biases 0] := rfl
  unfold updateRouting
  rw [hacts, hact]
  rfl

/-- Claim C2: at every routing iteration and every batch element, input
capsule and spatial position, the non-leaky routing coefficients (softmax of
the current logits over the out-capsule axis) sum to exactly one across
`out_dim`, while the leaky coefficients (zero leak channel prepended before
the softmax, discarded afterward) sum to strictly less than one. -/
theorem routing_coefficients_sum {nb ni nj na : ℕ} {S : Type} (hnj : 0 < nj)
    (votes : Votes nb ni nj na S) (biases : Biases nj na S) (k : ℕ)
    (b : Fin nb) (i : Fin ni) (s : S) :
    (∑ j, routeOf false (runRouting false votes biases k).1 b i j s) = 1
    ∧ (∑ j, routeOf true (runRouting true votes biases k).1 b i j s) < 1 := by
  constructor
  · simpa [routeOf] using
      softmaxVec_sum_one hnj (fun j' => (runRouting false votes biases k).1 b i j' s)
  · simpa [routeOf] using
      leakyRoutingVec_sum_lt_one (fun j' => (runRouting true votes biases k).1 b i j' s)

/-- Witness for C2 at concrete tensors (out_dim = 1, iteration 0). -/
theorem routing_coefficients_sum_witness :
    (∑ j, routeOf false (runRouting false sampleVotes sampleBiases 0).1 0 0 j ()) = 1
    ∧ (∑ j, routeOf true (runRouting true sampleVotes sampleBiases 0).1 0 0 j ()) < 1 :=
  routing_coefficients_sum (by decide) sampleVotes sampleBiases 0 0 0 ()

/-- Helper: scaling a capsule vector by a nonnegative scalar scales its
norm by that scalar. -/
theorem vecNorm_smul {n : ℕ} (c : ℝ) (hc : 0 ≤ c) (v : Fin n → ℝ) :
    vecNorm (fun a => c * v a) = c * vecNorm v := by
  unfold vecNorm
  have h : ∑ a, (c * v a) * (c * v a) = (c * c) * ∑ a, v a * v a := by
    rw [Finset.mul_sum]
    exact Finset.sum_congr rfl fun a _ => by ring
  rw [h, Real.sqrt_mul (mul_nonneg hc hc), Real.sqrt_mul_self hc]

/-- Claim C3: for a capsule vector of nonzero norm, squash rescales the
vector by the nonnegative scalar `‖v‖/(1+‖v‖²)` — so the output (of the
same shape) is parallel to the input — and the output norm equals
`‖v‖²/(1+‖v‖²)`, which lies in `[0, 1)`. -/
theorem squash_parallel_norm {n : ℕ} (v : Fin n → ℝ) (h : vecNorm v ≠ 0) :
    squashVec v = (fun a => (vecNorm v / (1 + vecNorm v * vecNorm v)) * v a)
    ∧ 0 ≤ vecNorm v / (1 + vecNorm v * vecNorm v)
    ∧ vecNorm (squashVec v) = vecNorm v * vecNorm v / (1 + vecNorm v * vecNorm v)
    ∧ 0 ≤ vecNorm (squashVec v)
    ∧ vecNorm (squashVec v) < 1 := by
  have h0 : 0 ≤ vecNorm v := Real.sqrt_nonneg _
  have hpos : 0 < vecNorm v := lt_of_le_of_ne h0 (Ne.symm h)
  have hd : 0 < 1 + vecNorm v * vecNorm v := by nlinarith
  have hc : 0 ≤ vecNorm v / (1 + vecNorm v * vecNorm v) := div_nonneg h0 hd.le
  have heq : squashVec v
      = fun a => (vecNorm v / (1 + vecNorm v * vecNorm v)) * v a := by
    funext a
    unfold squashVec
    field_simp
    ring
  have hval : vecNorm (squashVec v)
      = vecNorm v * vecNorm v / (1 + vecNorm v * vecNorm v) := by
    rw [heq, vecNorm_smul _ hc v, div_mul_eq_mul_div]
  refine ⟨heq, hc, hval, ?_, ?_⟩
  · rw [hval]
    positivity
  · rw [hval, div_lt_one hd]
    nlinarith

/-- Helper: the sample vector `(3)` has norm 3. -/
theorem vecNorm_sampleVec : vecNorm sampleVec = 3 := by
  unfold vecNorm sampleVec
  rw [show ∑ a : Fin 1, (3 : ℝ) * 3 = 9 by norm_num [Fin.sum_univ_one]]
  rw [show (9 : ℝ) = 3 * 3 by norm_num]
  exact Real.sqrt_mul_self (by norm_num)

/-- Witness for C3 at the concrete one-atom vector `(3)`. -/
theorem squash_parallel_norm_witness :
    squashVec sampleVec
        = (fun a => (vecNorm sampleVec / (1 + vecNorm sampleVec * vecNorm sampleVec)) * sampleVec a)
    ∧ 0 ≤ vecNorm sampleVec / (1 + vecNorm sampleVec * vecNorm sampleVec)
    ∧ vecNorm (squashVec sampleVec)
        = vecNorm sampleVec * vecNorm sampleVec / (1 + vecNorm sampleVec * vecNorm sampleVec)
    ∧ 0 ≤ vecNorm (squashVec sampleVec)
    ∧ vecNorm (squashVec sampleVec) < 1 :=
  squash_parallel_norm sampleVec (by rw [vecNorm_sampleVec]; norm_num)

/-- Helper: the activation array after `k` iterations holds exactly the
activations of iterations `0, ..., k-1`, in order. -/
theorem runRouting_acts {nb ni nj na : ℕ} {S : Type} (leaky : Bool)
    (votes : Votes nb ni nj na S) (biases : Biases nj na S) (k : ℕ) :
    (runRouting leaky votes biases k).2
      = (List.range k).map (activationAt leaky votes biases) := by
  induction k with
  | zero => rfl
  | succ k ih =>
    have hstep : (runRouting leaky votes biases (k + 1)).2
        = (runRouting leaky votes biases k).2 ++ [activationAt leaky votes biases k] := rfl
    rw [hstep, ih, List.range_succ, List.map_append]
    rfl

/-- Claim C6: for `num_routing ≥ 1` the routing loop executes exactly
`num_routing` iterations (the activation array has exactly that length),
the primary return value is the last iteration's activation, and every
intermediate iteration's activation remains readable from the array and is
published to the `visual` side collection. -/
theorem routing_loop_exact_iterations {nb ni nj na : ℕ} {S : Type}
    (votes : Votes nb ni nj na S) (biases : Biases nj na S) (leaky : Bool)
    (numRouting k : ℕ) (h : 1 ≤ numRouting) (hk : k < numRouting) :
    (runRouting leaky votes biases numRouting).2.length = numRouting
    ∧ updateRouting votes biases leaky numRouting
        = some (activationAt leaky votes biases (numRouting - 1))
    ∧ (runRouting leaky votes biases numRouting).2[k]?
        = some (activationAt leaky votes biases k)
    ∧ visualCollection votes biases leaky numRouting
        = (List.range numRouting).map
            (fun m => some (activationAt leaky votes biases m)) := by
  have hacts := runRouting_acts leaky votes biases numRouting
  have hget : ∀ m, m < numRouting →
      (runRouting leaky votes biases numRouting).2[m]?
        = some (activationAt leaky votes biases m) := by
    intro m hm
    rw [hacts, List.getElem?_map, List.getElem?_range hm]
    rfl
  refine ⟨?_, ?_, hget k hk, ?_⟩
  · rw [hacts]
    simp
  · unfold updateRouting
    exact hget (numRouting - 1) (by omega)
  · unfold visualCollection
    apply List.map_congr_left
    intro m hm
    exact hget m (List.mem_range.mp hm)

/-- Witness for C6 at concrete tensors with `num_routing = 1`. -/
theorem routing_loop_exact_iterations_witness :
    (runRouting false sampleVotes sampleBiases 1).2.length = 1
    ∧ updateRouting sampleVotes sampleBiases false 1
        = some (activationAt false sampleVotes sampleBiases 0)
    ∧ (runRouting false sampleVotes sampleBiases 1).2[0]?
        = some (activationAt false sampleVotes sampleBiases 0)
    ∧ visualCollection sampleVotes sampleBiases false 1
        = (List.range 1).map
            (fun m => some (activationAt false sampleVotes sampleBiases m)) :=
  routing_loop_exact_iterations sampleVotes sampleBiases false 1 0 (by decide) (by decide)

/-- Claim C7: the dense vote transform — tile the input across the merged
`out_dim * out_atoms` axis, multiply elementwise with the weights,
reduce-sum over the in-atoms axis, and reshape to expose `out_dim` and
`out_atoms` — produces
`votes[b,i,j,a] = Σ_c input[b,i,c] * weights[i,c,j*out_atoms+a]`, and each
input capsule reads only its own weight slice (changing weights outside
slice `i` leaves capsule `i`'s votes unchanged). -/
theorem dense_vote_transform {nb ni nc nj na : ℕ}
    (x : Fin nb → Fin ni → Fin nc → ℝ)
    (w w' : Fin ni → Fin nc → Fin (nj * na) → ℝ)
    (b : Fin nb) (i : Fin ni) (j : Fin nj) (a : Fin na)
    (hw : w' i = w i) :
    votesReshaped x w b i j a = ∑ c, x b i c * w i c (flatIdx j a)
    ∧ votesReshaped x w' b i j a = votesReshaped x w b i j a := by
  constructor
  · rfl
  · unfold votesReshaped votesFlat inTiled
    rw [hw]

/-- Witness for C7 at concrete one-capsule tensors. -/
theorem dense_vote_transform_witness :
    votesReshaped sampleInput sampleWeights 0 0 0 0
        = ∑ c, sampleInput 0 0 c * sampleWeights 0 c (flatIdx 0 0)
    ∧ votesReshaped sampleInput sampleWeights 0 0 0 0
        = votesReshaped sampleInput sampleWeights 0 0 0 0 :=
  dense_vote_transform sampleInput sampleWeights sampleWeights 0 0 0 0 rfl

/-- Claim C8: the source performs no construction-time validation of the
routing configuration.  With `num_routing = 0` the loop body never executes
(the logits stay at their zero initialization and no activation is ever
written), and the result comes from the failing out-of-range read
`activations.read(-1)` rather than from an upfront rejection. -/
theorem routing_zero_iterations_not_rejected {nb ni nj na : ℕ} {S : Type}
    (votes : Votes nb ni nj na S) (biases : Biases nj na S) (leaky : Bool) :
    updateRouting votes biases leaky 0 = none
    ∧ (runRouting leaky votes biases 0).2 = []
    ∧ (runRouting leaky votes biases 0).1 = fun _ _ _ _ => 0 :=
  ⟨rfl, rfl, rfl⟩

/-- Claim C9: the squash implementation adds no epsilon to the norm before
dividing — at a zero capsule vector the divisor `vecNorm v` is exactly `0`.
Under Lean's total-division convention `x / 0 = 0` the result is the zero
vector; in IEEE float arithmetic the same expression is `0/0 = NaN`, so the
code, unguarded, does not satisfy the claimed no-NaN guarantee. -/
theorem squash_zero_norm_divisor (n : ℕ) :
    vecNorm (fun _ : Fin n => (0 : ℝ)) = 0
    ∧ squashVec (fun _ : Fin n => (0 : ℝ)) = fun _ => (0 : ℝ) := by
  have hz : vecNorm (fun _ : Fin n => (0 : ℝ)) = 0 := by
    unfold vecNorm
    simp
  refine ⟨hz, ?_⟩
  funext a
  unfold squashVec
  rw [hz]
  simp

/-- Claim C10: the routing engine is deterministic — its output (and the
whole iteration trace, intermediate activations included) is a function of
the votes, biases, leaky flag and iteration count alone; the source draws
on no randomness and no state that persists across calls (the logits are
freshly zero-filled each forward pass). -/
theorem routing_deterministic {nb ni nj na : ℕ} {S : Type}
    (votes votes' : Votes nb ni nj na S) (biases biases' : Biases nj na S)
    (leaky leaky' : Bool) (n n' : ℕ)
    (h1 : votes = votes') (h2 : biases = biases') (h3 : leaky = leaky')
    (h4 : n = n') :
    updateRouting votes biases leaky n = updateRouting votes' biases' leaky' n'
    ∧ runRouting leaky votes biases n = runRouting leaky' votes' biases' n' := by
  subst h1; subst h2; subst h3; subst h4
  exact ⟨rfl, rfl⟩

/-- Witness for C10 at concrete tensors. -/
theorem routing_deterministic_witness :
    updateRouting sampleVotes sampleBiases false 1
      = updateRouting sampleVotes sampleBiases false 1
    ∧ runRouting false sampleVotes sampleBiases 1
      = runRouting false sampleVotes sampleBiases 1 :=
  routing_deterministic sampleVotes sampleVotes sampleBiases sampleBiases
    false false 1 1 rfl rfl rfl rfl

/-- Claim C4: `capsule` passes `num_ranks = 1` to the routing engine (source
line 293), so the tile-shape assignment `tile_shape[1] = in_dim` in the loop
body indexes past the end of the length-1 list and the layer fails at graph
construction instead of returning a `[batch, out_dim, out_atoms]` activation;
with the documented `num_ranks = 4` the same construction would succeed. -/
theorem capsule_layer_ill_ranked {nb ni nc nj na : ℕ}
    (x : Fin nb → Fin ni → Fin nc → ℝ)
    (w : Fin ni → Fin nc → Fin (nj * na) → ℝ)
    (bi : Fin nj → Fin na → ℝ) (leaky : Bool) (numRouting : ℕ) :
    capsuleLayer x w bi leaky numRouting = none
    ∧ tileShape capsuleNumRanks ni = none
    ∧ tileShape 4 ni = some [1, ni, 1, 1] :=
  ⟨rfl, rfl, rfl⟩

end CapsuleUtils
